import Mathlib

/-!
Shallow embedding of the obsplus repository code relevant to the checked
claims: dataset integrity checking and versioning (`obsplus/datasets/dataset.py`),
the lazy resource-id lists (`obsplus/events/lazycatalog.py` and
`obsplus/events/bigcatalog.py`), the SQL engine scan (`obsplus/events/sqlengine.py`)
and the dataframe extractor (`obsplus/structures/dfextractor.py`).

Python exceptions are modelled with `Except` over an explicit error type,
file systems and JSON files with association lists, and pandas dataframes
with ordered lists of named columns.
-/

namespace ObsPlus

/-- Python exception values that the embedded code can raise. -/
inductive PyErr
  | dataVersionError
  | attributeError
  | assertionError
  | valueError
  | typeError
  | fileHashChangedError (files : List String)
  | missingDataFileError (files : List String)
  deriving DecidableEq, Repr

/-- A small universe of Python values, enough to distinguish strings from
non-strings where the source performs an `isinstance` check. -/
inductive PyVal
  | pstr (s : String)
  | pint (n : Int)
  | pnone
  deriving DecidableEq, Repr

/-- First-match lookup in an association list keyed by strings, the model of
Python dictionary access. -/
def alookup {α : Type} : List (String × α) → String → Option α
  | [], _ => none
  | (k, v) :: rest, key => if k = key then some v else alookup rest key

/-- Keys of an association list. -/
def akeys {α : Type} (l : List (String × α)) : List String :=
  l.map Prod.fst

@[simp] theorem alookup_nil {α : Type} (k : String) :
    alookup ([] : List (String × α)) k = none := rfl

@[simp] theorem alookup_cons {α : Type} (k key : String) (v : α) (rest : List (String × α)) :
    alookup ((k, v) :: rest) key = if k = key then some v else alookup rest key := rfl

@[simp] theorem akeys_nil {α : Type} : akeys ([] : List (String × α)) = [] := rfl

@[simp] theorem akeys_cons {α : Type} (kv : String × α) (rest : List (String × α)) :
    akeys (kv :: rest) = kv.1 :: akeys rest := rfl

/-! ## Python string primitives

The embedded code works on the character lists underlying Lean strings so
that every operation is kernel-computable. -/

/-- Python string comparison `a < b`: lexicographic on code points. -/
def pyLt (a b : String) : Bool := decide (a.data < b.data)

/-- Python `str.lower()`. -/
def pyLower (s : String) : String := ⟨s.data.map Char.toLower⟩

/-- Splitting of a character list at every dot, keeping empty pieces, the
behavior of Python `str.split(".")`. -/
def splitDotAux : List Char → List Char → List (List Char)
  | [], cur => [cur.reverse]
  | c :: rest, cur =>
      if c = '.' then cur.reverse :: splitDotAux rest []
      else splitDotAux rest (c :: cur)

/-- Python `s.split(".")`. -/
def pySplitDot (s : String) : List String :=
  (splitDotAux s.data []).map String.mk

/-- Python `int(s)`-style parse used to model the external time parse:
digits with an optional leading minus; anything else (including the empty
string) fails. -/
def digitsToNat : List Char → Option Nat
  | [] => none
  | l =>
      l.foldl (fun acc c =>
        acc.bind (fun a => if c.isDigit then some (a * 10 + (c.toNat - 48)) else none))
        (some 0)

/-- Optional-integer parse of a string. -/
def pyToInt (s : String) : Option Int :=
  match s.data with
  | '-' :: rest => (digitsToNat rest).map (fun n => -(n : Int))
  | l => (digitsToNat l).map Int.ofNat

/-! ## Dataset file bookkeeping (`obsplus/datasets/dataset.py`) -/

/-- The version marker file name (`DataSet._version_filename`). -/
def _version_filename : String := ".dataset_version.txt"

/-- The hash manifest file name (`DataSet._hash_filename`). -/
def _hash_filename : String := ".dataset_md5_hash.json"

/-- The saved data path file name (`DataSet._saved_dataset_path_filename`). -/
def _saved_dataset_path_filename : String := ".dataset_data_path.txt"

/-- The exclude set used by `check_hashes` (`DataSet._hash_excludes`). -/
def _hash_excludes : List String :=
  ["readme.txt", _version_filename, _hash_filename, _saved_dataset_path_filename]

/-- A file whose name starts with a dot is hidden. -/
def isHidden (name : String) : Bool :=
  match name.data with
  | c :: _ => c = '.'
  | [] => false

/-- Stand-in for the md5 content digest: a deterministic computable digest of
the file content, adequate because the claims only compare digests. -/
def md5 (content : String) : String :=
  toString (content.data.foldl (fun h c => (h * 31 + c.toNat) % 1000000007) 7)

/-- Modelled from the spec: `md5_directory` (defined in `obsplus/utils.py`,
which is not among the provided sources) computes a fingerprint of a file
tree as a mapping from relative path to content hash; traversal ignores
hidden files unless `hidden` is set and skips names in the exclude set.
A directory is an association list from relative file name to content. -/
def md5_directory (dir : List (String × String)) (exclude : List String)
    (hidden : Bool) : List (String × String) :=
  (dir.filter (fun f => (hidden || !isHidden f.1) && !(exclude.contains f.1))).map
    (fun f => (f.1, md5 f.2))

/-- The ascending key order used when a manifest is written: lexicographic
comparison of the key characters. -/
def keyLe (a b : String × String) : Prop := a.1.data ≤ b.1.data

instance : DecidableRel keyLe := fun a b => inferInstanceAs (Decidable (a.1.data ≤ b.1.data))

/-- Sorting of the manifest items by key, the model of
`OrderedDict(sorted(out.items()))` in `create_md5_hash`. -/
def sortByKey (l : List (String × String)) : List (String × String) :=
  l.insertionSort keyLe

/-- Embeds `DataSet.create_md5_hash`: hashes the data directory excluding
only `readme.txt`, optionally writes the sorted mapping as JSON, and returns
the (unsorted) mapping. The result pairs the returned mapping with the
written file contents, `none` when `path` is `None` and nothing is written. -/
def create_md5_hash (dir : List (String × String)) (path : Option String)
    (hidden : Bool) : List (String × String) × Option (List (String × String)) :=
  let out := md5_directory dir ["readme.txt"] hidden
  (out, path.map (fun _ => sortByKey out))

/-- The overlap files of the manifest whose recomputed hash differs, as
computed inside `DataSet.check_hashes` (the sets `overlap` and
`has_changed`). -/
def changedList (old_hash dir : List (String × String)) : List String :=
  ((akeys old_hash).filter
      (fun x => (akeys (md5_directory dir _hash_excludes false)).contains x &&
        !(_hash_excludes.contains x))).filter
    (fun x => alookup old_hash x ≠ alookup (md5_directory dir _hash_excludes false) x)

/-- The files of the manifest whose recomputed hash is gone: the set
`(set(old_hash) - set(current_hash)) - set(self._hash_excludes)`. -/
def missingList (old_hash dir : List (String × String)) : List String :=
  (akeys old_hash).filter
    (fun x => !((akeys (md5_directory dir _hash_excludes false)).contains x) &&
      !(_hash_excludes.contains x))

/-- Embeds `DataSet.check_hashes`. The manifest models the JSON file at
`.dataset_md5_hash.json` (`none` when the file does not exist, in which case
the check returns immediately). The current hashes are recomputed with the
configured exclude set and hidden files skipped (the `md5_directory` call in
the source leaves `hidden` at its default `False`). -/
def check_hashes (manifest : Option (List (String × String)))
    (dir : List (String × String)) (check_hash : Bool) : Except PyErr Unit :=
  match manifest with
  | none => .ok ()
  | some old_hash =>
    if !(changedList old_hash dir).isEmpty && check_hash then
      .error (.fileHashChangedError (changedList old_hash dir))
    else if !(missingList old_hash dir).isEmpty then
      .error (.missingDataFileError (missingList old_hash dir))
    else
      .ok ()

/-- Embeds `DataSet._validate_version_str`. The source computes
`version_str.split(".")` unconditionally, so a non-string input raises
`AttributeError` before the `is_str` flag is ever consulted; only string
inputs can reach the `DataVersionError` branch. -/
def _validate_version_str (version_str : PyVal) : Except PyErr Unit :=
  match version_str with
  | .pstr s =>
      if (pySplitDot s).length = 3 then .ok ()
      else .error .dataVersionError
  | _ => .error .attributeError

/-- Embeds `DataSet.read_data_version`: `none` models a missing version file;
otherwise the file content (always a string) is validated. -/
def read_data_version (version_file : Option String) : Except PyErr String :=
  match version_file with
  | none => .error .dataVersionError
  | some s => do
      _ ← _validate_version_str (.pstr s)
      .ok s

/-- The observable state of a `DataSet` instance: its class version, the
persisted version file, the existence of the three data directories, the
persisted hash manifest and the data files used for hashing. -/
structure DSState where
  cls_version : String
  version_file : Option String
  waveforms_exist : Bool
  events_exist : Bool
  stations_exist : Bool
  manifest : Option (List (String × String))
  files : List (String × String)
  deriving DecidableEq, Repr

/-- The warning issued by `check_version` when the version file is missing
while no data need downloading. -/
def version_missing_warning : String :=
  "Version file is missing. Attempting to re-download the dataset."

/-- The warning issued by `check_version` when the stored version is newer
than the class version. -/
def version_newer_warning : String := "Dataset version mismatch"

/-- Embeds `DataSet.check_version`. The result carries the returned boolean
together with the warnings issued. A failing `read_data_version` is caught
and yields `False`; a stored version strictly smaller than the class version
(Python string comparison) raises `DataVersionError`; a strictly larger one
warns and returns `True`. -/
def check_version (ds : DSState) : Except PyErr (Bool × List String) :=
  match read_data_version ds.version_file with
  | .error _ =>
      let need_dl := [!ds.waveforms_exist, !ds.events_exist, !ds.stations_exist]
      if need_dl.any id then .ok (false, [])
      else .ok (false, [version_missing_warning])
  | .ok version =>
      if pyLt version ds.cls_version then .error .dataVersionError
      else if pyLt ds.cls_version version then .ok (true, [version_newer_warning])
      else .ok (true, [])

/-- The `DATA_TYPES` constant iterated by `_run_downloads`. -/
def DATA_TYPES : List String := ["waveform", "event", "station"]

/-- Whether a data type needs downloading (`{what}s_need_downloading`):
true when its directory does not exist. -/
def needs_downloading (ds : DSState) (what : String) : Bool :=
  if what = "waveform" then !ds.waveforms_exist
  else if what = "event" then !ds.events_exist
  else !ds.stations_exist

/-- Effect of `download_{what}s`: the corresponding directory exists
afterwards. -/
def download_type (ds : DSState) (what : String) : DSState :=
  if what = "waveform" then { ds with waveforms_exist := true }
  else if what = "event" then { ds with events_exist := true }
  else { ds with stations_exist := true }

/-- Result of `_run_downloads`: the final dataset state, the warnings that
were raised and the list of data types that were downloaded. -/
structure DLReport where
  state : DSState
  warnings : List String
  downloaded_types : List String
  deriving DecidableEq, Repr

/-- Embeds `DataSet._run_downloads`: check the version first (any exception
propagates), download every data type that is missing or whenever the
version check returned `False`, and if anything was downloaded run the fast
hash check and write a fresh version file. -/
def _run_downloads (ds0 : DSState) : Except PyErr DLReport := do
  let (version_ok, warns) ← check_version ds0
  let step := fun (acc : DSState × List String × Bool) (what : String) =>
    if needs_downloading acc.1 what || !version_ok then
      (download_type acc.1 what, acc.2.1 ++ [what], true)
    else acc
  let fin := DATA_TYPES.foldl step (ds0, [], false)
  if fin.2.2 then do
    _ ← check_hashes fin.1.manifest fin.1.files false
    let ds1 := { fin.1 with version_file := some fin.1.cls_version }
    .ok ⟨ds1, warns, fin.2.1⟩
  else
    .ok ⟨fin.1, warns, fin.2.1⟩

/-! ## Dataset registry (`DataSet.__init_subclass__`, `DataSet.load_dataset`) -/

/-- Insert or overwrite a key in an association list, the model of Python
dictionary assignment (existing keys keep their position, new keys append). -/
def ainsert {α : Type} (l : List (String × α)) (k : String) (v : α) : List (String × α) :=
  if (akeys l).contains k then
    l.map (fun kv => if kv.1 = k then (k, v) else kv)
  else
    l ++ [(k, v)]

/-- The shared registry state: `DataSet.datasets`, the cached entry points
and the `_loaded_datasets` cache, all keyed by name, with dataset classes
and instances identified by numbers. -/
structure Registry where
  datasets : List (String × Nat)
  entryPoints : List (String × Nat)
  loadedDatasets : List (String × Nat)
  deriving DecidableEq, Repr

/-- Embeds `DataSet.__init_subclass__`: assert the class name is a string,
validate the class version, then register the class in `DataSet.datasets`
under the lowercased name. -/
def __init_subclass__ (reg : Registry) (name : PyVal) (version : PyVal)
    (cls : Nat) : Except PyErr Registry :=
  match name with
  | .pstr s => do
      _ ← _validate_version_str version
      .ok { reg with datasets := ainsert reg.datasets (pyLower s) cls }
  | _ => .error .assertionError

/-- The possible successful outcomes of `load_dataset`: a copy of an already
loaded dataset, a fresh instantiation of a registered class, or the
entry-point branch which loads an entry point and retries. -/
inductive LoadOutcome
  | copyOfLoaded (inst : Nat)
  | instantiated (cls : Nat)
  | viaEntryPoint (ep : Nat)
  deriving DecidableEq, Repr

/-- Embeds `DataSet.load_dataset` for a string argument: lowercase the name,
fall back to entry points when it is not registered, raise `ValueError` when
it is registered nowhere, otherwise return the cached copy or instantiate. -/
def load_dataset (reg : Registry) (name : String) : Except PyErr LoadOutcome :=
  let n := pyLower name
  match alookup reg.datasets n with
  | none =>
      match alookup reg.entryPoints n with
      | some ep => .ok (.viaEntryPoint ep)
      | none => .error .valueError
  | some cls =>
      match alookup reg.loadedDatasets n with
      | some inst => .ok (.copyOfLoaded inst)
      | none => .ok (.instantiated cls)

/-! ## Lazy resource-id lists (`lazycatalog._LazyList`, `bigcatalog._LazyList`) -/

/-- Elements a `_LazyList` can hold: resolution keys (strings and
`ResourceIdentifier`s), resolved domain objects, `None`, and integers
(integers never sit in the list but can be compared against the failure set,
which is how the source tests `item in self._failed_str` with `item` being
the integer index). -/
inductive LElem
  | pstr (s : String)
  | prid (s : String)
  | pobj (o : Nat)
  | pnone
  | pint (n : Nat)
  deriving DecidableEq, Repr

/-- State of a `_LazyList`: the underlying `data` list and the
`_failed_str` set (modelled as a list of members). -/
structure LazyList where
  data : List LElem
  failed : List LElem
  deriving DecidableEq, Repr

/-- The id string a key element resolves through. -/
def keyString : LElem → String
  | .pstr s => s
  | .prid s => s
  | _ => ""

/-- Whether an element belongs to `_LazyList.key_classes = (str, ResourceIdentifier)`. -/
def isKeyElem : LElem → Bool
  | .pstr _ => true
  | .prid _ => true
  | _ => false

/-- Embeds `lazycatalog._LazyList.__getitem__` at a valid index. Returns the
value handed back to the caller, the updated list state, and whether the
object fetcher was invoked. The source checks `item in self._failed_str`
with `item` the integer index and, on a failed string fetch, adds `out`
(which is `None` at that point) to `_failed_str`. -/
def lazyGetitem (fetch : String → Option Nat) (ll : LazyList) (i : Nat) :
    LElem × LazyList × Bool :=
  match ll.data.get? i with
  | none => (.pnone, ll, false)
  | some obj =>
    if !isKeyElem obj || ll.failed.contains (.pint i) then
      (obj, ll, false)
    else
      match fetch (keyString obj) with
      | none =>
          match obj with
          | .pstr _ => (obj, { ll with failed := ll.failed ++ [.pnone] }, true)
          | _ => (.pnone, { ll with data := ll.data.set i .pnone }, true)
      | some o => (.pobj o, { ll with data := ll.data.set i (.pobj o) }, true)

/-- Embeds `lazycatalog._LazyList._isloaded` for one element: an element
counts as loaded unless it is a string outside `_failed_str`. -/
def isloadedElem (ll : LazyList) (x : LElem) : Bool :=
  match x with
  | .pstr _ => ll.failed.contains x
  | _ => true

/-- Embeds `bigcatalog._LazyList.__getitem__`, whose `key_classes` are plain
strings only and which, on a failed fetch, returns `out` (`None`) rather
than the key. -/
def bigGetitem (fetch : String → Option Nat) (ll : LazyList) (i : Nat) :
    LElem × LazyList × Bool :=
  match ll.data.get? i with
  | none => (.pnone, ll, false)
  | some obj =>
    match obj with
    | .pstr s =>
      if ll.failed.contains (.pint i) then (obj, ll, false)
      else
        match fetch s with
        | none => (.pnone, { ll with failed := ll.failed ++ [.pnone] }, true)
        | some o => (.pobj o, { ll with data := ll.data.set i (.pobj o) }, true)
    | _ => (obj, ll, false)

/-! ## Dataframe model shared by the SQL engine and the extractor -/

/-- A dataframe cell: a true null (`None`/`NaN`), a number, or a string. -/
inductive Cell
  | null
  | num (n : Int)
  | str (s : String)
  deriving DecidableEq, Repr

/-- A dataframe: an ordered list of named columns. -/
abbrev DataFrame := List (String × List Cell)

/-- Column labels of a dataframe. -/
def dfKeys (d : DataFrame) : List String := d.map Prod.fst

/-- pandas `df.empty`: true when the frame has no columns or no rows. -/
def dfEmpty (d : DataFrame) : Bool := d.isEmpty || d.any (fun col => col.2.isEmpty)

/-- A rectangular frame: all columns have the same length (always true of a
real pandas dataframe). -/
def dfRect (d : DataFrame) : Bool :=
  match d with
  | [] => true
  | c :: rest => rest.all (fun col => col.2.length = c.2.length)

/-! ## SQL engine scan (`obsplus/events/sqlengine.py`) -/

/-- The state of a `SQLEngine`: the summary table and the raw table built by
`dump_events`. -/
structure SQLEngine where
  summary_table : DataFrame
  raw_table : DataFrame
  deriving DecidableEq, Repr

/-- Embeds `SQLEngine.to_df`: returns the summary or raw table according to
`level` and otherwise falls off the end of the function (Python returns
`None`). All keyword arguments are accepted and ignored; no filtering is
applied and no exception is ever raised. -/
def to_df (eng : SQLEngine) (level : String)
    (kwargs : List (String × PyVal)) : Except PyErr (Option DataFrame) :=
  let _ := kwargs
  if level = "summary" then .ok (some eng.summary_table)
  else if level = "raw" then .ok (some eng.raw_table)
  else .ok none

/-! ## DataFrameExtractor (`obsplus/structures/dfextractor.py`) -/

/-- The two column dtypes the model distinguishes: pandas string columns and
numeric (float) columns. -/
inductive DType
  | dstr
  | dfloat
  deriving DecidableEq, Repr

/-- Error-propagating map over a list, the model of a pandas columnwise
`apply` of a function that can raise. -/
def mapE {α β : Type} (f : α → Except PyErr β) : List α → Except PyErr (List β)
  | [] => .ok []
  | a :: l => do
      let b ← f a
      let l' ← mapE f l
      .ok (b :: l')

/-- Embeds `_timestampit`: nulls pass through, numbers are already
timestamps, and strings go through the external `obspy.UTCDateTime` parse,
modelled by `String.toInt?` (a failing parse raises). -/
def _timestampit (c : Cell) : Except PyErr Cell :=
  match c with
  | .null => .ok .null
  | .num n => .ok (.num n)
  | .str s =>
      match pyToInt s with
      | some n => .ok (.num n)
      | none => .error .valueError

/-- The UTC pass on one column: apply `_timestampit` to every cell when the
column is named in `utc_columns`. -/
def utcCol (utc : List String) (col : String × List Cell) :
    Except PyErr (String × List Cell) :=
  if utc.contains col.1 then do
    let cells ← mapE _timestampit col.2
    .ok (col.1, cells)
  else .ok col

/-- The UTC-column pass of `DataFrameExtractor.__call__`: apply
`_timestampit` to every cell of every column named in `utc_columns`. -/
def applyUTC (utc : List String) (d : DataFrame) : Except PyErr DataFrame :=
  mapE (utcCol utc) d

/-- Embeds `_merge_dicts` (`{**dict1, **dict2}`): keys of the first mapping
keep their position with values overridden by the second, new keys append. -/
def _merge_dicts {α : Type} (d1 d2 : List (String × α)) : List (String × α) :=
  d1.map (fun kv => (kv.1, (alookup d2 kv.1).getD kv.2)) ++
    d2.filter (fun kv => !(akeys d1).contains kv.1)

/-- Embeds the `dtypes` property: `functools.reduce(_merge_dicts, self._dtypes)`,
which raises `TypeError` on an empty list. -/
def dtypesReduce : List (List (String × DType)) → Except PyErr (List (String × DType))
  | [] => .error .typeError
  | d :: rest => .ok (rest.foldl _merge_dicts d)

/-- pandas `astype` on one cell for the modelled dtypes: converting to a
string column renders nulls as the text `"nan"`; converting to a float
column keeps nulls and fails on non-numeric strings. -/
def coerceCell (dt : DType) (c : Cell) : Except PyErr Cell :=
  match dt, c with
  | .dstr, .null => .ok (.str "nan")
  | .dstr, .num n => .ok (.str (toString n))
  | .dstr, .str s => .ok (.str s)
  | .dfloat, .null => .ok .null
  | .dfloat, .num n => .ok (.num n)
  | .dfloat, .str s =>
      match pyToInt s with
      | some n => .ok (.num n)
      | none => .error .valueError

/-- The dtype cast on one column: coerce the cells when the column appears
in the dtype mapping. -/
def astCol (dt : List (String × DType)) (col : String × List Cell) :
    Except PyErr (String × List Cell) :=
  match alookup dt col.1 with
  | some t => do
      let cells ← mapE (coerceCell t) col.2
      .ok (col.1, cells)
  | none => .ok col

/-- pandas `df.astype(used_dtypes)`: coerce every column that appears in the
dtype mapping, leaving the others untouched. -/
def astype (dt : List (String × DType)) (d : DataFrame) : Except PyErr DataFrame :=
  mapE (astCol dt) d

/-- The replacement map `{"nan": "", "None": ""}` applied to one cell. -/
def replaceCell (c : Cell) : Cell :=
  if c = .str "nan" || c = .str "None" then .str "" else c

/-- The replacement map applied to one column. -/
def repCol (col : String × List Cell) : String × List Cell :=
  (col.1, col.2.map replaceCell)

/-- pandas `df.replace({"nan": "", "None": ""})` over the whole frame. -/
def replaceAll (d : DataFrame) : DataFrame :=
  d.map repCol

/-- The column of a given label (first match), empty when absent. -/
def getCol (d : DataFrame) (k : String) : List Cell := (alookup d k).getD []

/-- Reordering of the columns: the required labels first, in order, then the
remaining columns in their original order. -/
def reorder (req : List String) (d : DataFrame) : DataFrame :=
  req.map (fun k => (k, getCol d k)) ++ d.filter (fun col => !req.contains col.1)

/-- The required-column step of the modelled `order_columns`: assert the
required column labels are present, then order them first. -/
def reqCheck (d : DataFrame) (req : Option (List String)) : Except PyErr DataFrame :=
  match req with
  | none => .ok d
  | some r =>
      if r.all (fun k => (dfKeys d).contains k) then .ok (reorder r d)
      else .error .assertionError

/-- Modelled from the spec: `order_columns` (defined in `obsplus/utils.py`,
not among the provided sources). Per the extractor docstring it asserts the
required columns are present and orders them first with extra columns at the
end; it then enforces the dtype mapping and applies the replacement map (the
replacement runs last - it exists to rewrite the `"nan"`/`"None"` texts that
the pandas string cast produces for nulls). -/
def order_columns (d : DataFrame) (req : Option (List String))
    (dt : List (String × DType)) : Except PyErr DataFrame := do
  let d1 ← reqCheck d req
  let d2 ← astype dt d1
  .ok (replaceAll d2)

/-- Objects a row extractor can receive: a domain object with named scalar
fields, or a bare string (which is what iterating a dataframe yields, namely
its column labels). -/
inductive DomObj
  | dstr (s : String)
  | drec (fields : List (String × Cell))
  deriving DecidableEq, Repr

/-- A `DataFrameExtractor` instance: the registered row extractors
(`self.data`), the required column order, the accumulated `_dtypes` list,
the UTC columns and the `pass_dataframe` flag set at construction. A row
extractor returns its column dict or raises `SkipRow` (modelled as `none`). -/
structure DFExtractor where
  required : Option (List String)
  dtypesList : List (List (String × DType))
  utc : List String
  passDataframe : Bool
  extractors : List (DomObj → Option (List (String × Cell)))

/-- Option-propagating map over a list: the model of running every
registered extractor where any may raise `SkipRow`. -/
def mapO {A B : Type} (f : A → Option B) : List A → Option (List B)
  | [] => some []
  | a :: l => do
      let b ← f a
      let l2 ← mapO f l
      some (b :: l2)

/-- pandas `pd.DataFrame(rows)`: columns in order of first appearance across
the row dicts, with missing entries null. -/
def dedupKeysAux : List String → List String → List String
  | [], _ => []
  | k :: rest, seen =>
      if seen.contains k then dedupKeysAux rest seen
      else k :: dedupKeysAux rest (k :: seen)

/-- First-appearance deduplication of a key list. -/
def dedupKeys (l : List String) : List String := dedupKeysAux l []

/-- Build a dataframe from a list of row dicts, as `pd.DataFrame(rows)`. -/
def rowsToDf (rows : List (List (String × Cell))) : DataFrame :=
  let cols := dedupKeys (rows.flatMap (fun r => r.map Prod.fst))
  cols.map (fun k => (k, rows.map (fun r => (alookup r k).getD .null)))

/-- Embeds `DataFrameExtractor._base_call`: run every registered extractor on
every object, skip an object whose extractors raise `SkipRow`, merge the
per-extractor dicts of each surviving object into one row, and build a
dataframe from the rows. -/
def base_call (ext : DFExtractor) (objs : List DomObj) : DataFrame :=
  rowsToDf (objs.filterMap (fun o =>
    (mapO (fun f => f o) ext.extractors).map
      (fun dicts => dicts.foldl _merge_dicts [])))

/-- Inputs to `DataFrameExtractor.__call__`: a dataframe, a single instance
of the target class, or an iterable of instances. -/
inductive PyInput
  | df (d : DataFrame)
  | single (o : DomObj)
  | many (l : List DomObj)

/-- The UTC pass as guarded in `DataFrameExtractor.__call__`: skipped
entirely on an empty frame. -/
def utcStep (utc : List String) (d : DataFrame) : Except PyErr DataFrame :=
  if dfEmpty d then .ok d else applyUTC utc d

/-- The post-processing tail of `DataFrameExtractor.__call__`: the UTC pass
(skipped on an empty frame), the `dtypes` property (which raises `TypeError`
when no dtype mapping was ever supplied), and `order_columns`. -/
def postprocess (ext : DFExtractor) (d : DataFrame) : Except PyErr DataFrame := do
  let d1 ← utcStep ext.utc d
  let dt ← dtypesReduce ext.dtypesList
  order_columns d1 ext.required dt

/-- Embeds `DataFrameExtractor.__call__`: dispatch on the input type (a
dataframe is passed through when `pass_dataframe` was set at construction
and otherwise iterated, yielding its column labels), run `_base_call` on
non-dataframe input, then post-process. -/
def pycall (ext : DFExtractor) (x : PyInput) : Except PyErr DataFrame :=
  match x with
  | .df d =>
      if ext.passDataframe then postprocess ext d
      else postprocess ext (base_call ext ((dfKeys d).map .dstr))
  | .single o => postprocess ext (base_call ext [o])
  | .many l => postprocess ext (base_call ext l)

/-! ## Basic lemmas -/

@[simp] theorem except_bind_ok {A B : Type} (a : A) (f : A → Except PyErr B) :
    (Except.ok a >>= f) = f a := rfl

@[simp] theorem except_bind_error {A B : Type} (e : PyErr) (f : A → Except PyErr B) :
    ((Except.error e : Except PyErr A) >>= f) = .error e := rfl

/-! ## Concrete states used by witnesses and counterexamples -/

/-- A dataset state whose stored version is strictly older than the class
version. -/
def dsOlder : DSState := ⟨"1.2.3", some "1.2.2", true, true, true, none, []⟩

/-- A dataset state whose stored version is strictly newer than the class
version. -/
def dsNewer : DSState := ⟨"1.2.3", some "9.9.9", true, true, true, none, []⟩

/-- A dataset state with no version file on disk. -/
def dsNoVersion : DSState := ⟨"1.2.3", none, true, true, true, none, []⟩

/-! ## C1 -/

/-- C1 (amended): when the stored version parses, a strictly older stored
version makes `check_version` raise `DataVersionError` and the exception
propagates through `_run_downloads` to the caller; a strictly newer stored
version yields a warning and `True`; only an unreadable or missing version
file yields `False`, upon which `_run_downloads` re-downloads every data
type and writes a fresh version file. -/
theorem c1_version_check_behavior (ds : DSState) :
    (∀ v, read_data_version ds.version_file = .ok v →
      pyLt v ds.cls_version = true →
      check_version ds = .error .dataVersionError ∧
      _run_downloads ds = .error .dataVersionError) ∧
    (∀ v, read_data_version ds.version_file = .ok v →
      pyLt v ds.cls_version = false → pyLt ds.cls_version v = true →
      check_version ds = .ok (true, [version_newer_warning])) ∧
    (∀ e, read_data_version ds.version_file = .error e → ds.manifest = none →
      ∃ ws, check_version ds = .ok (false, ws) ∧
        _run_downloads ds = .ok
          ⟨{ ds with
              waveforms_exist := true
              events_exist := true
              stations_exist := true
              version_file := some ds.cls_version },
            ws, DATA_TYPES⟩) := by
  refine ⟨?_, ?_, ?_⟩
  · intro v hv hlt
    have hcv : check_version ds = .error .dataVersionError := by
      simp [check_version, hv, hlt]
    refine ⟨hcv, ?_⟩
    unfold _run_downloads
    rw [hcv]
    rfl
  · intro v hv hlt hgt
    simp [check_version, hv, hlt, hgt]
  · intro e he hman
    have hcv : check_version ds = .ok (false,
        if [!ds.waveforms_exist, !ds.events_exist, !ds.stations_exist].any id
        then [] else [version_missing_warning]) := by
      cases hb : [!ds.waveforms_exist, !ds.events_exist, !ds.stations_exist].any id <;>
        simp [check_version, he, hb]
    refine ⟨if [!ds.waveforms_exist, !ds.events_exist, !ds.stations_exist].any id
      then [] else [version_missing_warning], hcv, ?_⟩
    unfold _run_downloads
    rw [hcv]
    simp only [except_bind_ok, DATA_TYPES, List.foldl_cons, List.foldl_nil,
      Bool.not_false, Bool.or_true, if_true, needs_downloading, download_type]
    simp [check_hashes, hman]

/-- C1 (counterexample to the claim as stated): with the stored version
`"1.2.2"` strictly older than the expected `"1.2.3"`, `check_version`
raises `DataVersionError` and `_run_downloads` propagates the exception to
its caller instead of triggering a rebuild. -/
theorem c1_older_version_raises :
    check_version dsOlder = .error .dataVersionError ∧
    _run_downloads dsOlder = .error .dataVersionError := by
  exact ⟨rfl, rfl⟩

/-- C1 witness: the amended behavior at the three concrete states. -/
theorem c1_witness :
    check_version dsOlder = .error .dataVersionError ∧
    check_version dsNewer = .ok (true, [version_newer_warning]) ∧
    ∃ ws, check_version dsNoVersion = .ok (false, ws) ∧
      _run_downloads dsNoVersion = .ok
        ⟨{ dsNoVersion with
            waveforms_exist := true
            events_exist := true
            stations_exist := true
            version_file := some dsNoVersion.cls_version },
          ws, DATA_TYPES⟩ := by
  refine ⟨((c1_version_check_behavior dsOlder).1 "1.2.2" rfl rfl).1,
    (c1_version_check_behavior dsNewer).2.1 "9.9.9" rfl rfl rfl,
    (c1_version_check_behavior dsNoVersion).2.2 .dataVersionError rfl rfl⟩

/-! ## C3 -/

/-- The fetcher that fails to resolve every key. -/
def fetchNone : String → Option Nat := fun _ => none

/-- A lazy list holding one unresolvable string key. -/
def llKey : LazyList := ⟨[.pstr "rid1"], []⟩

/-- The same list after one failed access: `_failed_str` gained `None`, not
the key. -/
def llKeyFailed : LazyList := ⟨[.pstr "rid1"], [.pnone]⟩

/-- C3 (code bug): after a failed string resolution the source adds the
fetch result (`None`) instead of the key to `_failed_str` and compares the
integer index against that set, so the failure is never recorded for the
position: a second access at the same position invokes the fetcher again
(third component `true`), `_failed_str` accumulates `None` entries, the
element still counts as not loaded, and the `bigcatalog` variant even
returns `None` instead of the key string. -/
theorem c3_failed_resolution_retries :
    lazyGetitem fetchNone llKey 0 = (.pstr "rid1", llKeyFailed, true) ∧
    lazyGetitem fetchNone llKeyFailed 0 =
      (.pstr "rid1", ⟨[.pstr "rid1"], [.pnone, .pnone]⟩, true) ∧
    isloadedElem llKeyFailed (.pstr "rid1") = false ∧
    bigGetitem fetchNone llKey 0 = (.pnone, llKeyFailed, true) := by
  exact ⟨rfl, rfl, rfl, rfl⟩

/-! ## C4 -/

/-- A concrete engine with a one-row summary table. -/
def engSample : SQLEngine := ⟨[("event_id", [.str "smi-local-a"])], []⟩

/-- C4 (counterexample to the claim as stated): an unrecognized filter key
passed to `to_df` raises nothing and the unfiltered summary table is
returned. -/
theorem c4_unknown_key_ignored :
    to_df engSample "summary" [("bogus_filter", .pint 1)] =
      .ok (some [("event_id", [.str "smi-local-a"])]) ∧
    ∀ e, to_df engSample "summary" [("bogus_filter", .pint 1)] ≠ .error e := by
  refine ⟨rfl, ?_⟩
  intro e h
  simp [to_df] at h

/-- C4 (amended): `to_df` accepts arbitrary keyword arguments and ignores
them all: a summary-level scan always returns the unfiltered summary table
and never raises, whatever filter keys are supplied. -/
theorem c4_to_df_unfiltered (eng : SQLEngine) (kwargs : List (String × PyVal)) :
    to_df eng "summary" kwargs = .ok (some eng.summary_table) := by
  rfl

/-! ## C7 -/

/-- C7 (code bug): for string input, `_validate_version_str` raises
`DataVersionError` exactly when the input does not split on dots into three
parts, and `read_data_version` behaves accordingly on the stored file; but
for non-string input the eagerly evaluated `version_str.split(".")` raises
`AttributeError` before the `is_str` check can produce the documented
`DataVersionError`. -/
theorem c7_validate_version :
    (∀ s, _validate_version_str (.pstr s) =
      (if (pySplitDot s).length = 3 then .ok () else .error .dataVersionError)) ∧
    _validate_version_str .pnone = .error .attributeError ∧
    _validate_version_str (.pint 1) = .error .attributeError ∧
    PyErr.attributeError ≠ PyErr.dataVersionError ∧
    (∀ vf, read_data_version vf =
      match vf with
      | none => .error .dataVersionError
      | some s =>
          if (pySplitDot s).length = 3 then .ok s else .error .dataVersionError) := by
  refine ⟨fun s => rfl, rfl, rfl, by simp, ?_⟩
  intro vf
  cases vf with
  | none => rfl
  | some s =>
      simp only [read_data_version, _validate_version_str]
      split <;> rfl

/-! ## C2 and C6: the integrity check -/

/-- Membership in the changed-files list computed by `check_hashes`. -/
theorem mem_changedList (old_hash dir : List (String × String)) (f : String) :
    f ∈ changedList old_hash dir ↔
      f ∈ akeys old_hash ∧ f ∈ akeys (md5_directory dir _hash_excludes false) ∧
        f ∉ _hash_excludes ∧
        alookup old_hash f ≠ alookup (md5_directory dir _hash_excludes false) f := by
  simp only [changedList, List.mem_filter, Bool.and_eq_true, decide_eq_true_eq]
  constructor
  · rintro ⟨⟨h1, h2, h3⟩, h4⟩
    exact ⟨h1, by simpa using h2, by simpa using h3, h4⟩
  · rintro ⟨h1, h2, h3, h4⟩
    exact ⟨⟨h1, by simpa using h2, by simpa using h3⟩, h4⟩

/-- Membership in the missing-files list computed by `check_hashes`. -/
theorem mem_missingList (old_hash dir : List (String × String)) (f : String) :
    f ∈ missingList old_hash dir ↔
      f ∈ akeys old_hash ∧ f ∉ akeys (md5_directory dir _hash_excludes false) ∧
        f ∉ _hash_excludes := by
  simp only [missingList, List.mem_filter, Bool.and_eq_true]
  constructor
  · rintro ⟨h1, h2, h3⟩
    exact ⟨h1, by simpa using h2, by simpa using h3⟩
  · rintro ⟨h1, h2, h3⟩
    exact ⟨h1, by simpa using h2, by simpa using h3⟩

/-- C2: with a persisted manifest, a hash mismatch on a file present in both
the manifest and the recomputed non-excluded hashes makes strong-mode
`check_hashes` raise `FileHashChangedError` naming exactly the files whose
hashes changed; in fast mode a mismatch alone (every non-excluded manifest
entry still hashable on disk) raises nothing. -/
theorem c2_hash_mismatch_detection (old_hash dir : List (String × String)) :
    (∀ f, f ∈ akeys old_hash →
      f ∈ akeys (md5_directory dir _hash_excludes false) →
      f ∉ _hash_excludes →
      alookup old_hash f ≠ alookup (md5_directory dir _hash_excludes false) f →
      check_hashes (some old_hash) dir true =
          .error (.fileHashChangedError (changedList old_hash dir)) ∧
        f ∈ changedList old_hash dir ∧
        ∀ g, g ∈ changedList old_hash dir ↔ (g ∈ akeys old_hash ∧
          g ∈ akeys (md5_directory dir _hash_excludes false) ∧ g ∉ _hash_excludes ∧
          alookup old_hash g ≠ alookup (md5_directory dir _hash_excludes false) g)) ∧
    ((∀ f, f ∈ akeys old_hash → f ∉ _hash_excludes →
        f ∈ akeys (md5_directory dir _hash_excludes false)) →
      check_hashes (some old_hash) dir false = .ok ()) := by
  constructor
  · intro f hfold hfcur hfex hfne
    have hfmem := (mem_changedList old_hash dir f).mpr ⟨hfold, hfcur, hfex, hfne⟩
    have hne : (changedList old_hash dir).isEmpty = false := by
      rw [List.isEmpty_eq_false]
      exact List.ne_nil_of_mem hfmem
    refine ⟨?_, hfmem, fun g => mem_changedList old_hash dir g⟩
    simp [check_hashes, hne]
  · intro hall
    have hmiss : missingList old_hash dir = [] := by
      rw [missingList, List.filter_eq_nil_iff]
      intro a ha hpa
      rcases (Bool.and_eq_true _ _).mp hpa with ⟨h1, h2⟩
      have h2' : a ∉ _hash_excludes := by simpa using h2
      have h1' : a ∉ akeys (md5_directory dir _hash_excludes false) := by simpa using h1
      exact h1' (hall a ha h2')
    simp [check_hashes, hmiss]

/-- C2 witness: the theorem applied to a one-file manifest whose stored hash
is stale, in strong and fast mode. -/
theorem c2_witness :
    (check_hashes (some [("data.txt", "stale")]) [("data.txt", "x")] true =
        .error (.fileHashChangedError
          (changedList [("data.txt", "stale")] [("data.txt", "x")])) ∧
      "data.txt" ∈ changedList [("data.txt", "stale")] [("data.txt", "x")] ∧
      ∀ g, g ∈ changedList [("data.txt", "stale")] [("data.txt", "x")] ↔
        (g ∈ akeys [("data.txt", "stale")] ∧
          g ∈ akeys (md5_directory [("data.txt", "x")] _hash_excludes false) ∧
          g ∉ _hash_excludes ∧
          alookup [("data.txt", "stale")] g ≠
            alookup (md5_directory [("data.txt", "x")] _hash_excludes false) g)) ∧
    check_hashes (some [("data.txt", "stale")]) [("data.txt", "x")] false = .ok () := by
  refine ⟨(c2_hash_mismatch_detection [("data.txt", "stale")] [("data.txt", "x")]).1
      "data.txt" (by decide) (by decide) (by decide) (by decide),
    (c2_hash_mismatch_detection [("data.txt", "stale")] [("data.txt", "x")]).2
      (by decide)⟩

/-- C6 (counterexample to the claim as stated): in strong mode, when a hash
mismatch and a missing non-excluded manifest file occur together,
`check_hashes` raises `FileHashChangedError` rather than
`MissingDataFileError`. -/
theorem c6_strong_mode_masks_missing :
    check_hashes (some [("a.txt", "stale"), ("b.txt", "gone")]) [("a.txt", "x")] true =
      .error (.fileHashChangedError ["a.txt"]) ∧
    "b.txt" ∈ akeys [("a.txt", "stale"), ("b.txt", "gone")] ∧
    "b.txt" ∉ _hash_excludes ∧
    "b.txt" ∉ akeys (md5_directory [("a.txt", "x")] _hash_excludes false) ∧
    ∀ m, check_hashes (some [("a.txt", "stale"), ("b.txt", "gone")]) [("a.txt", "x")] true ≠
      .error (.missingDataFileError m) := by
  refine ⟨rfl, by decide, by decide, by decide, ?_⟩
  intro m h
  rw [show check_hashes (some [("a.txt", "stale"), ("b.txt", "gone")]) [("a.txt", "x")] true =
    .error (.fileHashChangedError ["a.txt"]) from rfl] at h
  exact absurd (Except.error.inj h) (by simp)

/-- C6 (amended): a non-excluded manifest file absent from the recomputed
directory hashes makes `check_hashes` raise `MissingDataFileError` naming
exactly the missing files, in fast mode always and in strong mode whenever
no hash mismatch fires first. -/
theorem c6_missing_file_detection (old_hash dir : List (String × String))
    (check_hash : Bool) (f : String) :
    f ∈ akeys old_hash → f ∉ _hash_excludes →
    f ∉ akeys (md5_directory dir _hash_excludes false) →
    (check_hash = false ∨
      ∀ g, g ∈ akeys old_hash → g ∈ akeys (md5_directory dir _hash_excludes false) →
        g ∉ _hash_excludes →
        alookup old_hash g = alookup (md5_directory dir _hash_excludes false) g) →
    check_hashes (some old_hash) dir check_hash =
        .error (.missingDataFileError (missingList old_hash dir)) ∧
      f ∈ missingList old_hash dir ∧
      ∀ g, g ∈ missingList old_hash dir ↔ (g ∈ akeys old_hash ∧
        g ∉ akeys (md5_directory dir _hash_excludes false) ∧ g ∉ _hash_excludes) := by
  intro hfold hfex hfabs hside
  have hfmem := (mem_missingList old_hash dir f).mpr ⟨hfold, hfabs, hfex⟩
  have hne : (missingList old_hash dir).isEmpty = false := by
    rw [List.isEmpty_eq_false]
    exact List.ne_nil_of_mem hfmem
  have hfirst : (!(changedList old_hash dir).isEmpty && check_hash) = false := by
    rcases hside with hfast | hnochange
    · simp [hfast]
    · have hcl : changedList old_hash dir = [] := by
        rw [changedList, List.filter_eq_nil_iff]
        intro a ha hpa
        have ham : a ∈ changedList old_hash dir := by
          rw [changedList]
          exact List.mem_filter.mpr ⟨ha, hpa⟩
        rcases (mem_changedList old_hash dir a).mp ham with ⟨h1, h2, h3, h4⟩
        exact h4 (hnochange a h1 h2 h3)
      simp [hcl]
  refine ⟨?_, hfmem, fun g => mem_missingList old_hash dir g⟩
  simp [check_hashes, hfirst, hne]

/-- C6 witness: the amended theorem at a manifest whose only file is absent,
in fast mode and in mismatch-free strong mode. -/
theorem c6_witness :
    (check_hashes (some [("b.txt", "gone")]) [] false =
        .error (.missingDataFileError (missingList [("b.txt", "gone")] [])) ∧
      "b.txt" ∈ missingList [("b.txt", "gone")] [] ∧
      ∀ g, g ∈ missingList [("b.txt", "gone")] [] ↔ (g ∈ akeys [("b.txt", "gone")] ∧
        g ∉ akeys (md5_directory [] _hash_excludes false) ∧ g ∉ _hash_excludes)) ∧
    (check_hashes (some [("b.txt", "gone")]) [] true =
        .error (.missingDataFileError (missingList [("b.txt", "gone")] [])) ∧
      "b.txt" ∈ missingList [("b.txt", "gone")] [] ∧
      ∀ g, g ∈ missingList [("b.txt", "gone")] [] ↔ (g ∈ akeys [("b.txt", "gone")] ∧
        g ∉ akeys (md5_directory [] _hash_excludes false) ∧ g ∉ _hash_excludes)) := by
  refine ⟨c6_missing_file_detection [("b.txt", "gone")] [] false "b.txt"
      (by decide) (by decide) (by decide) (Or.inl rfl),
    c6_missing_file_detection [("b.txt", "gone")] [] true "b.txt"
      (by decide) (by decide) (by decide) (Or.inr ?_)⟩
  intro g hg hgcur hgex
  simp [akeys, md5_directory] at hgcur

/-! ## C8: the written hash manifest -/

instance : IsTotal (String × String) keyLe :=
  ⟨fun a b => le_total a.1.data b.1.data⟩

instance : IsTrans (String × String) keyLe :=
  ⟨fun _ _ _ hab hbc => le_trans hab hbc⟩

/-- Unfolding of `md5_directory` over a cons cell. -/
theorem md5_directory_cons (k v : String) (rest : List (String × String))
    (exclude : List String) (hid : Bool) :
    md5_directory ((k, v) :: rest) exclude hid =
      if (hid || !isHidden k) && !(exclude.contains k) then
        (k, md5 v) :: md5_directory rest exclude hid
      else md5_directory rest exclude hid := by
  simp only [md5_directory, List.filter_cons]
  split <;> simp_all

/-- Lookup in the hash mapping produced by `md5_directory`: present exactly
for the files that pass the hidden check and the exclude set, and then the
digest of the stored content. -/
theorem alookup_md5_directory (dir : List (String × String)) (exclude : List String)
    (hid : Bool) (f : String) :
    alookup (md5_directory dir exclude hid) f =
      if (hid || !isHidden f) && !(exclude.contains f) then (alookup dir f).map md5
      else none := by
  induction dir with
  | nil => simp [md5_directory]
  | cons kv rest ih =>
      obtain ⟨k, v⟩ := kv
      rw [md5_directory_cons]
      by_cases hk : k = f
      · subst hk
        by_cases hp : ((hid || !isHidden k) && !(exclude.contains k)) = true
        · rw [if_pos hp, if_pos hp]
          simp
        · rw [if_neg hp, ih, if_neg hp, if_neg hp]
      · by_cases hp : ((hid || !isHidden k) && !(exclude.contains k)) = true
        · rw [if_pos hp]
          simp only [alookup_cons, if_neg hk, ih]
        · rw [if_neg hp, ih]
          simp [hk]

/-- C8: `create_md5_hash` returns the mapping that sends every non-excluded
(not `readme.txt`, not hidden unless requested) file to the digest of its
content; when a path is given the written manifest is that same mapping (a
permutation of it) with keys in ascending order, and when the path is `None`
nothing is written. -/
theorem c8_manifest_written_sorted (dir : List (String × String)) (hidden : Bool) :
    ((create_md5_hash dir none hidden).2 = none) ∧
    (∀ pth, (create_md5_hash dir pth hidden).1 =
      md5_directory dir ["readme.txt"] hidden) ∧
    (∀ pth f, alookup (create_md5_hash dir pth hidden).1 f =
      if (hidden || !isHidden f) && !(f = "readme.txt") then (alookup dir f).map md5
      else none) ∧
    (∀ p, (create_md5_hash dir (some p) hidden).2 =
      some (sortByKey (md5_directory dir ["readme.txt"] hidden))) ∧
    (∀ p, List.Pairwise keyLe ((create_md5_hash dir (some p) hidden).2.getD [])) ∧
    (∀ p, ((create_md5_hash dir (some p) hidden).2.getD []).Perm
      (create_md5_hash dir (some p) hidden).1) := by
  refine ⟨rfl, fun pth => rfl, ?_, fun p => rfl, fun p => ?_, fun p => ?_⟩
  · intro pth f
    rw [show (create_md5_hash dir pth hidden).1 =
      md5_directory dir ["readme.txt"] hidden from rfl]
    rw [alookup_md5_directory]
    simp
  · exact List.sorted_insertionSort keyLe (md5_directory dir ["readme.txt"] hidden)
  · exact List.perm_insertionSort keyLe (md5_directory dir ["readme.txt"] hidden)

/-! ## C9: the dataset registry -/

/-- Lookup misses lists whose keys avoid the key. -/
theorem alookup_eq_none {α : Type} (l : List (String × α)) (k : String)
    (h : k ∉ akeys l) : alookup l k = none := by
  induction l with
  | nil => rfl
  | cons kv rest ih =>
      have hk : kv.1 ≠ k := by
        intro he
        exact h (by simp [akeys, he])
      have hr : k ∉ akeys rest := by
        intro hm
        exact h (by simp [akeys]; right; simpa [akeys] using hm)
      cases kv
      simp only [alookup_cons, if_neg hk]
      exact ih hr

/-- Lookup after the in-place overwrite used by `ainsert`. -/
theorem alookup_map_replace {α : Type} (l : List (String × α)) (k : String) (v : α)
    (h : k ∈ akeys l) :
    alookup (l.map (fun kv => if kv.1 = k then (k, v) else kv)) k = some v := by
  induction l with
  | nil => simp [akeys] at h
  | cons kv rest ih =>
      by_cases hk : kv.1 = k
      · simp [hk]
      · have hr : k ∈ akeys rest := by
          rcases List.mem_cons.mp (by simpa using h) with he | hm
          · exact absurd he.symm hk
          · exact hm
        simp only [List.map_cons, if_neg hk]
        cases kv
        simp only [alookup_cons]
        rw [if_neg (by simpa using hk)]
        exact ih hr

/-- Lookup skips an appended prefix that misses the key. -/
theorem alookup_append_right {α : Type} (l1 l2 : List (String × α)) (k : String)
    (h : k ∉ akeys l1) : alookup (l1 ++ l2) k = alookup l2 k := by
  induction l1 with
  | nil => rfl
  | cons kv rest ih =>
      have hk : kv.1 ≠ k := by
        intro he
        exact h (by simp [akeys, he])
      have hr : k ∉ akeys rest := by
        intro hm
        exact h (by simp [akeys]; right; simpa [akeys] using hm)
      cases kv
      simp only [List.cons_append, alookup_cons, if_neg hk]
      exact ih hr

/-- Dictionary assignment makes the assigned key resolve to the new value. -/
theorem alookup_ainsert {α : Type} (l : List (String × α)) (k : String) (v : α) :
    alookup (ainsert l k v) k = some v := by
  unfold ainsert
  by_cases hc : (akeys l).contains k = true
  · rw [if_pos hc]
    exact alookup_map_replace l k v (by simpa using hc)
  · rw [if_neg hc]
    rw [alookup_append_right l [(k, v)] k (by simpa using hc)]
    simp

/-- C9: subclass creation rejects a non-string name, rejects a version that
is not of the `x.y.z` form, and on success registers the class in the shared
table under the lowercased name; `load_dataset` then resolves every
registered name case-insensitively and raises `ValueError` exactly for names
registered neither in the table nor among the entry points. -/
theorem c9_registry_registration_and_lookup :
    (∀ reg ver cls, __init_subclass__ reg .pnone ver cls = .error .assertionError) ∧
    (∀ reg ver cls, __init_subclass__ reg (.pint 3) ver cls = .error .assertionError) ∧
    (∀ reg name ver cls, (pySplitDot ver).length ≠ 3 →
      __init_subclass__ reg (.pstr name) (.pstr ver) cls = .error .dataVersionError) ∧
    (∀ reg name ver cls reg', __init_subclass__ reg (.pstr name) ver cls = .ok reg' →
      (∃ s, ver = .pstr s ∧ (pySplitDot s).length = 3) ∧
      alookup reg'.datasets (pyLower name) = some cls) ∧
    (∀ reg nm cls, alookup reg.datasets (pyLower nm) = some cls →
      (load_dataset reg nm).isOk = true) ∧
    (∀ reg n1 n2, pyLower n1 = pyLower n2 → load_dataset reg n1 = load_dataset reg n2) ∧
    (∀ reg nm, alookup reg.datasets (pyLower nm) = none →
      alookup reg.entryPoints (pyLower nm) = none →
      load_dataset reg nm = .error .valueError) := by
  refine ⟨fun reg ver cls => rfl, fun reg ver cls => rfl, ?_, ?_, ?_, ?_, ?_⟩
  · intro reg name ver cls hlen
    simp [__init_subclass__, _validate_version_str, hlen]
  · intro reg name ver cls reg' h
    cases hval : _validate_version_str ver with
    | error e => simp [__init_subclass__, hval] at h
    | ok u =>
        have hver : ∃ s, ver = .pstr s ∧ (pySplitDot s).length = 3 := by
          cases ver with
          | pstr s =>
              refine ⟨s, rfl, ?_⟩
              by_contra hlen
              simp [_validate_version_str, hlen] at hval
          | pint n => simp [_validate_version_str] at hval
          | pnone => simp [_validate_version_str] at hval
        refine ⟨hver, ?_⟩
        simp only [__init_subclass__, hval, except_bind_ok] at h
        cases h
        exact alookup_ainsert reg.datasets (pyLower name) cls
  · intro reg nm cls h
    simp only [load_dataset, h]
    cases alookup reg.loadedDatasets (pyLower nm) <;> rfl
  · intro reg n1 n2 h
    unfold load_dataset
    rw [h]
  · intro reg nm h1 h2
    simp [load_dataset, h1, h2]

/-- A registry holding one dataset class registered as `"bingham"` and no
entry points. -/
def regSample : Registry := ⟨[("bingham", 7)], [], []⟩

/-- C9 witness: registration through `__init_subclass__` at a concrete
class, mixed-case resolution, and the `ValueError` case on an empty
registry. -/
theorem c9_witness :
    ((∃ s, PyVal.pstr "0.0.1" = PyVal.pstr s ∧ (pySplitDot s).length = 3) ∧
      alookup (ainsert (⟨[], [], []⟩ : Registry).datasets (pyLower "Bingham") 7)
        (pyLower "Bingham") = some 7) ∧
    (load_dataset regSample "BingHam").isOk = true ∧
    load_dataset (⟨[], [], []⟩ : Registry) "nosuch" = .error .valueError := by
  refine ⟨?_, ?_, ?_⟩
  · exact (c9_registry_registration_and_lookup.2.2.2.1 ⟨[], [], []⟩ "Bingham"
      (.pstr "0.0.1") 7 _ rfl)
  · exact c9_registry_registration_and_lookup.2.2.2.2.1 regSample "BingHam" 7 rfl
  · exact c9_registry_registration_and_lookup.2.2.2.2.2.2 ⟨[], [], []⟩ "nosuch" rfl rfl

/-! ## Generic lemmas about the dataframe pipeline -/

theorem except_bind_ok_iff {A B : Type} {e : Except PyErr A} {f : A → Except PyErr B}
    {b : B} : (e >>= f) = .ok b ↔ ∃ a, e = .ok a ∧ f a = .ok b := by
  cases e with
  | ok a => simp
  | error er =>
      constructor
      · intro h
        exact absurd h (by simp)
      · rintro ⟨a, ha, _⟩
        exact absurd ha (by simp)

theorem mapE_id {A : Type} {g : A → Except PyErr A} {l : List A}
    (h : ∀ a ∈ l, g a = .ok a) : mapE g l = .ok l := by
  induction l with
  | nil => rfl
  | cons a rest ih =>
      simp only [mapE, h a (by simp), except_bind_ok]
      rw [ih (fun b hb => h b (by simp [hb]))]
      rfl

theorem mapE_mem_rev {A B : Type} {g : A → Except PyErr B} {l : List A} {l2 : List B}
    (h : mapE g l = .ok l2) : ∀ b ∈ l2, ∃ a ∈ l, g a = .ok b := by
  induction l generalizing l2 with
  | nil =>
      cases l2 with
      | nil => intro b hb; simp at hb
      | cons x xs => simp [mapE] at h
  | cons a rest ih =>
      rw [mapE, except_bind_ok_iff] at h
      obtain ⟨b0, hb0, h⟩ := h
      rw [except_bind_ok_iff] at h
      obtain ⟨rest2, hrest2, h⟩ := h
      cases h
      intro b hb
      rcases List.mem_cons.mp hb with hb | hb
      · exact ⟨a, by simp, by rw [hb0, hb]⟩
      · obtain ⟨a', ha', hga'⟩ := ih hrest2 b hb
        exact ⟨a', by simp [ha'], hga'⟩

theorem mapE_append_ok {A B : Type} {g : A → Except PyErr B} {l1 l2 : List A}
    {out : List B} (h : mapE g (l1 ++ l2) = .ok out) :
    ∃ o1 o2, out = o1 ++ o2 ∧ mapE g l1 = .ok o1 ∧ mapE g l2 = .ok o2 := by
  induction l1 generalizing out with
  | nil => exact ⟨[], out, rfl, rfl, h⟩
  | cons a rest ih =>
      rw [List.cons_append, mapE, except_bind_ok_iff] at h
      obtain ⟨b0, hb0, h⟩ := h
      rw [except_bind_ok_iff] at h
      obtain ⟨restOut, hrest, h⟩ := h
      cases h
      obtain ⟨o1, o2, ho, h1, h2⟩ := ih hrest
      refine ⟨b0 :: o1, o2, by simp [ho], ?_, h2⟩
      rw [mapE, hb0, except_bind_ok, h1, except_bind_ok]

theorem mapE_keys {g : String × List Cell → Except PyErr (String × List Cell)}
    {l l2 : DataFrame} (hg : ∀ a b, g a = .ok b → b.1 = a.1)
    (h : mapE g l = .ok l2) : akeys l2 = akeys l := by
  induction l generalizing l2 with
  | nil => cases l2 with
      | nil => rfl
      | cons x xs => simp [mapE] at h
  | cons a rest ih =>
      rw [mapE, except_bind_ok_iff] at h
      obtain ⟨b0, hb0, h⟩ := h
      rw [except_bind_ok_iff] at h
      obtain ⟨rest2, hrest2, h⟩ := h
      cases h
      simp [akeys_cons, hg a b0 hb0, ih hrest2]

/-- A list maps to itself under a function that fixes each member. -/
theorem map_id_of {A : Type} {f : A → A} {l : List A} (h : ∀ a ∈ l, f a = a) :
    l.map f = l := by
  induction l with
  | nil => rfl
  | cons a rest ih =>
      simp only [List.map_cons, h a (by simp)]
      rw [ih (fun b hb => h b (by simp [hb]))]

/-! ## Cell-level facts -/

/-- Shape of a successful `_timestampit` output: a true null or a number. -/
theorem timestampit_out {c c1 : Cell} (h : _timestampit c = .ok c1) :
    c1 = .null ∨ ∃ n, c1 = .num n := by
  cases c with
  | null => cases h; exact Or.inl rfl
  | num n => cases h; exact Or.inr ⟨n, rfl⟩
  | str s =>
      have h' : (match pyToInt s with
          | some n => Except.ok (Cell.num n)
          | none => (Except.error .valueError : Except PyErr Cell)) = .ok c1 := h
      cases hp : pyToInt s with
      | none => rw [hp] at h'; cases h'
      | some n => rw [hp] at h'; cases h'; exact Or.inr ⟨n, rfl⟩

/-- Nulls and numbers are fixed points of `_timestampit`. -/
theorem timestampit_fix {c : Cell} (h : c = .null ∨ ∃ n, c = .num n) :
    _timestampit c = .ok c := by
  rcases h with h | ⟨n, h⟩ <;> subst h <;> rfl

/-- Shape of a successful string coercion: always a string cell. -/
theorem coerce_dstr_out {c c2 : Cell} (h : coerceCell .dstr c = .ok c2) :
    ∃ s, c2 = .str s := by
  cases c with
  | null => cases h; exact ⟨"nan", rfl⟩
  | num n => cases h; exact ⟨toString n, rfl⟩
  | str s => cases h; exact ⟨s, rfl⟩

/-- Shape of a successful float coercion: a null or a number. -/
theorem coerce_dfloat_out {c c2 : Cell} (h : coerceCell .dfloat c = .ok c2) :
    c2 = .null ∨ ∃ n, c2 = .num n := by
  cases c with
  | null => cases h; exact Or.inl rfl
  | num n => cases h; exact Or.inr ⟨n, rfl⟩
  | str s =>
      have h' : (match pyToInt s with
          | some n => Except.ok (Cell.num n)
          | none => (Except.error .valueError : Except PyErr Cell)) = .ok c2 := h
      cases hp : pyToInt s with
      | none => rw [hp] at h'; cases h'
      | some n => rw [hp] at h'; cases h'; exact Or.inr ⟨n, rfl⟩

/-- Nulls and numbers are fixed points of the float coercion. -/
theorem coerce_dfloat_fix {c : Cell} (h : c = .null ∨ ∃ n, c = .num n) :
    coerceCell .dfloat c = .ok c := by
  rcases h with h | ⟨n, h⟩ <;> subst h <;> rfl

/-- The replacement map fixes nulls and numbers. -/
theorem replace_fix_nullnum {c : Cell} (h : c = .null ∨ ∃ n, c = .num n) :
    replaceCell c = c := by
  rcases h with h | ⟨n, h⟩ <;> subst h <;> rfl

/-- The replacement map sends strings to strings. -/
theorem replace_str_out (s : String) : ∃ s2, replaceCell (.str s) = .str s2 := by
  unfold replaceCell
  split
  · exact ⟨"", rfl⟩
  · exact ⟨s, rfl⟩

/-- The replacement map is idempotent on cells. -/
theorem replaceCell_idem (c : Cell) : replaceCell (replaceCell c) = replaceCell c := by
  unfold replaceCell
  split <;> simp_all

/-- A replaced cell is never the literal text `"None"` or `"nan"`. -/
theorem replaceCell_not_sentinel (c : Cell) :
    replaceCell c ≠ .str "None" ∧ replaceCell c ≠ .str "nan" := by
  unfold replaceCell
  split <;> simp_all

/-! ## Stability of post-processed cells -/

/-- A cell that the post-processing pipeline leaves untouched: the UTC pass
(when the column is a UTC column), the dtype coercion (when the column has a
dtype), and the replacement map all fix it. -/
def stableCell (dtc : Option DType) (u : Bool) (c : Cell) : Prop :=
  (u = true → _timestampit c = .ok c) ∧
  (∀ t, dtc = some t → coerceCell t c = .ok c) ∧
  replaceCell c = c

/-- Every cell produced by one pass of the pipeline (UTC where applicable,
then coercion where applicable, then replacement) is stable, provided a UTC
column is not string-coerced. -/
theorem cell_stable (u : Bool) (dtc : Option DType) (hud : u = true → dtc ≠ some .dstr)
    (c1 c2 : Cell)
    (hu : u = true → c1 = .null ∨ ∃ n, c1 = .num n)
    (h2 : (∃ t, dtc = some t ∧ coerceCell t c1 = .ok c2) ∨ (dtc = none ∧ c2 = c1)) :
    stableCell dtc u (replaceCell c2) := by
  rcases h2 with ⟨t, hdt, hco⟩ | ⟨hdt, hc⟩
  · cases t with
    | dstr =>
        cases u with
        | true => exact absurd hdt (hud rfl)
        | false =>
            obtain ⟨s, hs⟩ := coerce_dstr_out hco
            subst hs
            obtain ⟨s2, hs2⟩ := replace_str_out s
            rw [hs2]
            refine ⟨fun hf => absurd hf Bool.false_ne_true, ?_, ?_⟩
            · intro t ht
              rw [hdt] at ht
              cases ht
              rfl
            · have := replaceCell_idem (.str s)
              rw [hs2] at this
              exact this
    | dfloat =>
        have hsh := coerce_dfloat_out hco
        rw [replace_fix_nullnum hsh]
        refine ⟨fun _ => timestampit_fix hsh, ?_, replace_fix_nullnum hsh⟩
        intro t ht
        rw [hdt] at ht
        cases ht
        exact coerce_dfloat_fix hsh
  · subst hc
    cases u with
    | true =>
        have hsh := hu rfl
        rw [replace_fix_nullnum hsh]
        refine ⟨fun _ => timestampit_fix hsh, ?_, replace_fix_nullnum hsh⟩
        intro t ht
        rw [hdt] at ht
        cases ht
    | false =>
        refine ⟨fun hf => absurd hf Bool.false_ne_true, ?_, replaceCell_idem _⟩
        intro t ht
        rw [hdt] at ht
        cases ht

/-! ## Association-list and reorder lemmas -/

theorem alookup_append_left {α : Type} {l1 l2 : List (String × α)} {k : String} {v : α}
    (h : alookup l1 k = some v) : alookup (l1 ++ l2) k = some v := by
  induction l1 with
  | nil => cases h
  | cons kv rest ih =>
      cases kv
      simp only [alookup_cons] at h
      simp only [List.cons_append, alookup_cons]
      split at h
      · rw [if_pos (by assumption)]
        exact h
      · rw [if_neg (by assumption)]
        exact ih h

theorem alookup_mem_entry {α : Type} {l : List (String × α)} {k : String} {v : α}
    (h : alookup l k = some v) : (k, v) ∈ l := by
  induction l with
  | nil => cases h
  | cons kv rest ih =>
      cases kv with
      | mk k0 v0 =>
          simp only [alookup_cons] at h
          split at h
          · cases h
            subst_vars
            simp
          · simp [ih h]

theorem mem_alookup_isSome {α : Type} {l : List (String × α)} {a : String × α}
    (h : a ∈ l) : ∃ v, alookup l a.1 = some v := by
  induction l with
  | nil => simp at h
  | cons kv rest ih =>
      cases kv with
      | mk k0 v0 =>
          rcases List.mem_cons.mp h with he | hm
          · subst he
            exact ⟨v0, by simp⟩
          · by_cases hk : k0 = a.1
            · exact ⟨v0, by simp [hk]⟩
            · obtain ⟨v, hv⟩ := ih hm
              exact ⟨v, by simp [hk, hv]⟩

/-- A frame whose columns are determined by their label. -/
def keyDetermined (l : DataFrame) : Prop :=
  ∀ a ∈ l, ∀ b ∈ l, a.1 = b.1 → a = b

/-- Rebuilding a frame from its own key list by lookup reproduces it, as
long as lookups resolve each column to its own content. -/
theorem map_getCol_eq (E A : DataFrame) (hsub : ∀ a ∈ A, getCol E a.1 = a.2) :
    (akeys A).map (fun k => (k, getCol E k)) = A := by
  induction A with
  | nil => rfl
  | cons a rest ih =>
      simp only [akeys_cons, List.map_cons]
      rw [hsub a (by simp)]
      rw [ih (fun b hb => hsub b (by simp [hb]))]

/-- Reordering a frame that is already in required-first form is the
identity. -/
theorem reorder_fix (A B : DataFrame) (hkd : keyDetermined A)
    (hdisj : ∀ b ∈ B, b.1 ∉ akeys A) :
    reorder (akeys A) (A ++ B) = A ++ B := by
  unfold reorder
  have h1 : (akeys A).map (fun k => (k, getCol (A ++ B) k)) = A := by
    refine map_getCol_eq (A ++ B) A ?_
    intro a ha
    obtain ⟨v, hv⟩ := mem_alookup_isSome ha
    have hva : v = a.2 := by
      have hm := alookup_mem_entry hv
      have := hkd (a.1, v) hm a ha rfl
      rw [show a = (a.1, a.2) from rfl] at this
      exact congrArg Prod.snd this
    unfold getCol
    rw [alookup_append_left hv, hva]
    rfl
  have h2 : (A ++ B).filter (fun col => !(akeys A).contains col.1) = B := by
    rw [List.filter_append]
    have hA : A.filter (fun col => !(akeys A).contains col.1) = [] := by
      rw [List.filter_eq_nil_iff]
      intro a ha
      simp only [Bool.not_eq_true', Bool.not_eq_false]
      have : a.1 ∈ akeys A := by
        rw [show a.1 = ((fun p : String × List Cell => p.1) a) from rfl]
        exact List.mem_map_of_mem _ ha
      simpa using this
    have hB : B.filter (fun col => !(akeys A).contains col.1) = B := by
      rw [List.filter_eq_self]
      intro b hb
      simpa using hdisj b hb
    rw [hA, hB, List.nil_append]
  rw [h1, h2]

/-! ## Decomposition of a successful post-processing pass -/

theorem postprocess_ok_parts {ext : DFExtractor} {d out : DataFrame}
    (h : postprocess ext d = .ok out) :
    ∃ d1 dt, utcStep ext.utc d = .ok d1 ∧
      dtypesReduce ext.dtypesList = .ok dt ∧
      order_columns d1 ext.required dt = .ok out := by
  unfold postprocess at h
  rw [except_bind_ok_iff] at h
  obtain ⟨d1, h1, h⟩ := h
  rw [except_bind_ok_iff] at h
  obtain ⟨dt, h2, h3⟩ := h
  exact ⟨d1, dt, h1, h2, h3⟩

theorem order_columns_ok_parts {d1 : DataFrame} {req : Option (List String)}
    {dt : List (String × DType)} {out : DataFrame}
    (h : order_columns d1 req dt = .ok out) :
    ∃ d1r d2, reqCheck d1 req = .ok d1r ∧
      astype dt d1r = .ok d2 ∧ out = replaceAll d2 := by
  unfold order_columns at h
  rw [except_bind_ok_iff] at h
  obtain ⟨d1r, h1, h⟩ := h
  rw [except_bind_ok_iff] at h
  obtain ⟨d2, h2, h3⟩ := h
  cases h3
  exact ⟨d1r, d2, h1, h2, rfl⟩

/-- The UTC column pass preserves the column label. -/
theorem utcCol_key {utc : List String} {a b : String × List Cell}
    (h : utcCol utc a = .ok b) : b.1 = a.1 := by
  unfold utcCol at h
  split at h
  · rw [except_bind_ok_iff] at h
    obtain ⟨cells, _, h⟩ := h
    cases h
    rfl
  · cases h
    rfl

/-- Characterization of the UTC column pass. -/
theorem utcCol_cases {utc : List String} {a b : String × List Cell}
    (h : utcCol utc a = .ok b) :
    (utc.contains a.1 = true ∧ ∃ cells, mapE _timestampit a.2 = .ok cells ∧
      b = (a.1, cells)) ∨
    (utc.contains a.1 = false ∧ b = a) := by
  unfold utcCol at h
  by_cases hc : utc.contains a.1 = true
  · rw [if_pos hc] at h
    rw [except_bind_ok_iff] at h
    obtain ⟨cells, hcells, h⟩ := h
    cases h
    exact Or.inl ⟨hc, cells, hcells, rfl⟩
  · rw [if_neg hc] at h
    cases h
    exact Or.inr ⟨by simpa using hc, rfl⟩

/-- The dtype cast preserves the column label. -/
theorem astCol_key {dt : List (String × DType)} {a b : String × List Cell}
    (h : astCol dt a = .ok b) : b.1 = a.1 := by
  unfold astCol at h
  split at h
  · rw [except_bind_ok_iff] at h
    obtain ⟨cells, _, h⟩ := h
    cases h
    rfl
  · cases h
    rfl

/-- Characterization of the dtype cast on one column. -/
theorem astCol_cases {dt : List (String × DType)} {a b : String × List Cell}
    (h : astCol dt a = .ok b) :
    (∃ t cells, alookup dt a.1 = some t ∧ mapE (coerceCell t) a.2 = .ok cells ∧
      b = (a.1, cells)) ∨
    (alookup dt a.1 = none ∧ b = a) := by
  unfold astCol at h
  cases hdt : alookup dt a.1 with
  | some t =>
      rw [hdt] at h
      rw [except_bind_ok_iff] at h
      obtain ⟨cells, hcells, h⟩ := h
      cases h
      exact Or.inl ⟨t, cells, rfl, hcells, rfl⟩
  | none =>
      rw [hdt] at h
      cases h
      exact Or.inr ⟨rfl, rfl⟩

/-- A rectangular empty frame has no cells at all. -/
theorem rect_empty_cells {d : DataFrame} (hrect : dfRect d = true)
    (hempty : dfEmpty d = true) : ∀ col ∈ d, col.2 = [] := by
  cases d with
  | nil => intro col hcol; simp at hcol
  | cons c rest =>
      have hlen : ∀ col ∈ rest, col.2.length = c.2.length := by
        intro col hcol
        have h1 := List.all_eq_true.mp
          (show rest.all (fun col => decide (col.2.length = c.2.length)) = true from hrect)
        exact of_decide_eq_true (h1 col hcol)
      have hany : (c :: rest).any (fun col => col.2.isEmpty) = true := by
        have h2 : dfEmpty (c :: rest) =
            ((c :: rest : DataFrame).any (fun col => col.2.isEmpty)) := by
          simp [dfEmpty]
        rw [h2] at hempty
        exact hempty
      obtain ⟨col0, hcol0, hie0⟩ := List.any_eq_true.mp hany
      have hcol0nil : col0.2 = [] := by
        cases hcc : col0.2 with
        | nil => rfl
        | cons x xs => rw [hcc] at hie0; simp [List.isEmpty] at hie0
      have hc0 : c.2 = [] := by
        rcases List.mem_cons.mp hcol0 with he | hm
        · rw [← he]; exact hcol0nil
        · have := hlen col0 hm
          rw [hcol0nil] at this
          exact List.eq_nil_of_length_eq_zero this.symm
      intro col hcol
      rcases List.mem_cons.mp hcol with he | hm
      · rw [he]; exact hc0
      · have := hlen col hm
        rw [hc0] at this
        exact List.eq_nil_of_length_eq_zero (by simpa using this)

/-- The first column carrying a label is a member of the frame. -/
theorem getCol_mem {d : DataFrame} {k : String} (h : k ∈ akeys d) :
    (k, getCol d k) ∈ d := by
  induction d with
  | nil => simp at h
  | cons c rest ih =>
      cases c with
      | mk k0 cs0 =>
          by_cases hk : k0 = k
          · subst hk
            have : getCol ((k0, cs0) :: rest) k0 = cs0 := by simp [getCol]
            rw [this]
            simp
          · have hm : k ∈ akeys rest := by
              rcases List.mem_cons.mp (by simpa using h) with he | hmm
              · exact absurd he.symm hk
              · exact hmm
            have : getCol ((k0, cs0) :: rest) k = getCol rest k := by
              simp [getCol, hk]
            rw [this]
            exact List.mem_cons_of_mem _ (ih hm)

/-- Every column of a reordered frame is a column of the frame, provided the
required labels are present. -/
theorem reorder_mem {r : List String} {d : DataFrame}
    (hsub : ∀ k ∈ r, k ∈ akeys d) : ∀ col ∈ reorder r d, col ∈ d := by
  intro col hcol
  rcases List.mem_append.mp hcol with hm | hm
  · obtain ⟨k, hk, he⟩ := List.mem_map.mp hm
    cases he
    exact getCol_mem (hsub k hk)
  · exact (List.mem_filter.mp hm).1

/-! ## Second-pass identity lemmas -/

theorem utcStep_fix {utc : List String} {d : DataFrame}
    (hstable : ∀ col ∈ d, ∀ c ∈ col.2,
      utc.contains col.1 = true → _timestampit c = .ok c) :
    utcStep utc d = .ok d := by
  unfold utcStep
  split
  · rfl
  · apply mapE_id
    intro col hcol
    obtain ⟨k, cs⟩ := col
    unfold utcCol
    by_cases hc : utc.contains (k, cs).1 = true
    · rw [if_pos hc]
      rw [mapE_id (fun c hcm => hstable (k, cs) hcol c hcm hc)]
      rfl
    · rw [if_neg hc]

theorem astype_fix {dt : List (String × DType)} {d : DataFrame}
    (hstable : ∀ col ∈ d, ∀ c ∈ col.2, ∀ t,
      alookup dt col.1 = some t → coerceCell t c = .ok c) :
    astype dt d = .ok d := by
  apply mapE_id
  intro col hcol
  obtain ⟨k, cs⟩ := col
  unfold astCol
  cases hdt : alookup dt (k, cs).1 with
  | some t =>
      show (do
        let cells ← mapE (coerceCell t) (k, cs).2
        Except.ok ((k, cs).1, cells)) = Except.ok (k, cs)
      rw [mapE_id (fun c hcm => hstable (k, cs) hcol c hcm t hdt)]
      rfl
  | none => rfl

theorem replaceAll_fix {d : DataFrame}
    (hstable : ∀ col ∈ d, ∀ c ∈ col.2, replaceCell c = c) :
    replaceAll d = d := by
  apply map_id_of
  intro col hcol
  obtain ⟨k, cs⟩ := col
  unfold repCol
  rw [map_id_of (fun c hcm => hstable (k, cs) hcol c hcm)]

/-! ## Key structure of a reordered and post-processed frame -/

theorem akeys_map_key (g : String → List Cell) (r : List String) :
    akeys (r.map (fun k => (k, g k))) = r := by
  induction r with
  | nil => rfl
  | cons k rest ih => simp [akeys_cons, ih]

theorem akeys_map_repCol (l : DataFrame) : akeys (l.map repCol) = akeys l := by
  induction l with
  | nil => rfl
  | cons col rest ih => simp [akeys_cons, repCol, ih]

theorem akeys_append {α : Type} (l1 l2 : List (String × α)) :
    akeys (l1 ++ l2) = akeys l1 ++ akeys l2 := by
  simp [akeys]

/-- The required part of a reorder is determined by the column label. -/
theorem keyDetermined_req_part (r : List String) (d1 : DataFrame) :
    keyDetermined (r.map (fun k => (k, getCol d1 k))) := by
  intro a ha b hb hab
  obtain ⟨ka, _, hea⟩ := List.mem_map.mp ha
  obtain ⟨kb, _, heb⟩ := List.mem_map.mp hb
  cases hea
  cases heb
  simp only at hab
  rw [hab]

/-- `mapE` of a label-preserving column transform preserves label
determinacy. -/
theorem keyDetermined_mapE {g : String × List Cell → Except PyErr (String × List Cell)}
    {l l2 : DataFrame} (hg : ∀ a b, g a = .ok b → b.1 = a.1)
    (hkd : keyDetermined l) (h : mapE g l = .ok l2) : keyDetermined l2 := by
  intro a2 ha2 b2 hb2 hab
  obtain ⟨a, ha, hga⟩ := mapE_mem_rev h a2 ha2
  obtain ⟨b, hb, hgb⟩ := mapE_mem_rev h b2 hb2
  have hab' : a.1 = b.1 := by rw [← hg a a2 hga, ← hg b b2 hgb, hab]
  have : a = b := hkd a ha b hb hab'
  rw [this] at hga
  rw [hga] at hgb
  exact Except.ok.inj hgb

/-- `map` of a label-preserving column transform preserves label
determinacy. -/
theorem keyDetermined_map_repCol {l : DataFrame} (hkd : keyDetermined l) :
    keyDetermined (l.map repCol) := by
  intro a2 ha2 b2 hb2 hab
  obtain ⟨a, ha, hea⟩ := List.mem_map.mp ha2
  obtain ⟨b, hb, heb⟩ := List.mem_map.mp hb2
  cases hea
  cases heb
  have hab' : a.1 = b.1 := hab
  rw [hkd a ha b hb hab']

/-- After one ordering pass followed by the label-preserving cast and
replacement, the required labels are still present and a second reorder is
the identity. -/
theorem reorder_pass2 {r : List String} {dt : List (String × DType)}
    {d1 d2 : DataFrame} (hast : astype dt (reorder r d1) = .ok d2) :
    r.all (fun k => (dfKeys (replaceAll d2)).contains k) = true ∧
    reorder r (replaceAll d2) = replaceAll d2 := by
  have hast' : mapE (astCol dt) ((r.map (fun k => (k, getCol d1 k))) ++
      d1.filter (fun col => !r.contains col.1)) = .ok d2 := hast
  obtain ⟨a2, b2, hd2, hA, hB⟩ := mapE_append_ok hast'
  have hkeysA2 : akeys a2 = r := by
    rw [mapE_keys (fun a b => astCol_key) hA, akeys_map_key]
  have hout : replaceAll d2 = a2.map repCol ++ b2.map repCol := by
    rw [hd2]
    simp [replaceAll]
  have hkeysA' : akeys (a2.map repCol) = r := by
    rw [akeys_map_repCol, hkeysA2]
  have hkd : keyDetermined (a2.map repCol) :=
    keyDetermined_map_repCol
      (keyDetermined_mapE (fun a b => astCol_key) (keyDetermined_req_part r d1) hA)
  have hdisj : ∀ b ∈ b2.map repCol, b.1 ∉ akeys (a2.map repCol) := by
    intro b hb
    rw [hkeysA']
    obtain ⟨b0, hb0, heb⟩ := List.mem_map.mp hb
    obtain ⟨b1, hb1, hgb⟩ := mapE_mem_rev hB b0 hb0
    have hkey : b.1 = b1.1 := by
      rw [← heb]
      show b0.1 = b1.1
      exact astCol_key hgb
    have := (List.mem_filter.mp hb1).2
    rw [hkey]
    simpa using this
  constructor
  · rw [List.all_eq_true]
    intro k hk
    have : k ∈ dfKeys (replaceAll d2) := by
      rw [hout]
      have : k ∈ akeys (a2.map repCol) := by rw [hkeysA']; exact hk
      rw [show dfKeys (a2.map repCol ++ b2.map repCol) =
        akeys (a2.map repCol) ++ akeys (b2.map repCol) from akeys_append _ _]
      exact List.mem_append_left _ this
    simpa using this
  · rw [hout, ← hkeysA']
    exact reorder_fix (a2.map repCol) (b2.map repCol) hkd hdisj

/-- Cells of a frame after the UTC step: in a UTC column they are true
nulls or numbers. -/
theorem utcStep_cells {utc : List String} {d d1 : DataFrame}
    (hrect : dfRect d = true) (h : utcStep utc d = .ok d1) :
    (∀ col ∈ d1, utc.contains col.1 = true →
      ∀ c ∈ col.2, c = .null ∨ ∃ n, c = .num n) ∧
    (∀ col ∈ d1, col ∈ d ∨ ∃ col0 ∈ d, col = (col0.1, col.2)) := by
  unfold utcStep at h
  split at h
  · cases h
    constructor
    · intro col hcol _ c hc
      rw [rect_empty_cells hrect (by assumption) col hcol] at hc
      simp at hc
    · intro col hcol
      exact Or.inl hcol
  · constructor
    · intro col1 hcol1 hcont c hc
      obtain ⟨col, hcol, hg⟩ := mapE_mem_rev h col1 hcol1
      rcases utcCol_cases hg with ⟨hcu, cells, hcells, hb⟩ | ⟨hcu, hb⟩
      · subst hb
        obtain ⟨c0, _, hts⟩ := mapE_mem_rev hcells c hc
        exact timestampit_out hts
      · subst hb
        rw [hcont] at hcu
        cases hcu
    · intro col1 hcol1
      obtain ⟨col, hcol, hg⟩ := mapE_mem_rev h col1 hcol1
      rcases utcCol_cases hg with ⟨_, cells, _, hb⟩ | ⟨_, hb⟩
      · subst hb
        exact Or.inr ⟨col, hcol, rfl⟩
      · subst hb
        exact Or.inl hcol

/-- Every cell of a successfully post-processed frame is stable under the
pipeline, provided no UTC column is string-coerced. -/
theorem postprocess_out_stable {ext : DFExtractor} {d d1 out : DataFrame}
    {dt : List (String × DType)}
    (hrect : dfRect d = true)
    (hud : ∀ k, ext.utc.contains k = true → alookup dt k ≠ some DType.dstr)
    (hstep1 : utcStep ext.utc d = .ok d1)
    (hoc : order_columns d1 ext.required dt = .ok out) :
    ∀ col ∈ out, ∀ c ∈ col.2,
      stableCell (alookup dt col.1) (ext.utc.contains col.1) c := by
  obtain ⟨d1r, d2, hreq, hast, hout⟩ := order_columns_ok_parts hoc
  have hd1r_sub : ∀ col ∈ d1r, col ∈ d1 := by
    unfold reqCheck at hreq
    cases hre : ext.required with
    | none =>
        rw [hre] at hreq
        cases hreq
        exact fun col hc => hc
    | some r =>
        rw [hre] at hreq
        have hreq' : (if (r.all fun k => (dfKeys d1).contains k) = true
            then Except.ok (reorder r d1)
            else (Except.error PyErr.assertionError : Except PyErr DataFrame)) =
            Except.ok d1r := hreq
        by_cases hall : (r.all fun k => (dfKeys d1).contains k) = true
        · rw [if_pos hall] at hreq'
          cases hreq'
          refine reorder_mem ?_
          intro k hk
          have := List.all_eq_true.mp hall k hk
          simpa [dfKeys, akeys] using this
        · rw [if_neg hall] at hreq'
          cases hreq'
  have hd1utc : ∀ col ∈ d1, ext.utc.contains col.1 = true →
      ∀ c ∈ col.2, c = .null ∨ ∃ n, c = .num n :=
    (utcStep_cells hrect hstep1).1
  subst hout
  intro col hcol c hc
  obtain ⟨col2, hcol2, hrep⟩ := List.mem_map.mp hcol
  obtain ⟨col1, hcol1, hastc⟩ := mapE_mem_rev hast col2 hcol2
  have hcol1d1 := hd1r_sub col1 hcol1
  have hk2 : col2.1 = col1.1 := astCol_key hastc
  have hk : col.1 = col2.1 := by rw [← hrep]; rfl
  have hcells : col.2 = col2.2.map replaceCell := by rw [← hrep]; rfl
  rw [hcells] at hc
  obtain ⟨c2, hc2, hceq⟩ := List.mem_map.mp hc
  rw [← hceq, hk, hk2]
  rcases astCol_cases hastc with ⟨t, cells, hdtc, hcoe, hb⟩ | ⟨hdtc, hb⟩
  · have hc2cells : c2 ∈ cells := by
      rw [hb] at hc2
      exact hc2
    obtain ⟨c1, hc1, hco⟩ := mapE_mem_rev hcoe c2 hc2cells
    exact cell_stable _ _ (fun hcont => hud col1.1 hcont) c1 c2
      (fun hcont => hd1utc col1 hcol1d1 hcont c1 hc1)
      (Or.inl ⟨t, hdtc, hco⟩)
  · have hc2cells : c2 ∈ col1.2 := by
      rw [hb] at hc2
      exact hc2
    exact cell_stable _ _ (fun hcont => hud col1.1 hcont) c2 c2
      (fun hcont => hd1utc col1 hcol1d1 hcont c2 hc2cells)
      (Or.inr ⟨hdtc, rfl⟩)

/-- Whether no UTC column of the extractor is assigned the string dtype by
the merged dtype mapping (vacuously true when the `dtypes` property
raises). -/
def utcOkB (ext : DFExtractor) : Bool :=
  match dtypesReduce ext.dtypesList with
  | .error _ => true
  | .ok dt => ext.utc.all (fun c => alookup dt c ≠ some .dstr)

/-- A second post-processing pass reproduces the output of a successful
first pass, for every rectangular input frame and every extractor whose UTC
columns are not string-coerced. -/
theorem postprocess_idem {ext : DFExtractor} {d out : DataFrame}
    (hrect : dfRect d = true) (hutc : utcOkB ext = true)
    (h : postprocess ext d = .ok out) : postprocess ext out = .ok out := by
  obtain ⟨d1, dt, hstep1, hdt, hoc⟩ := postprocess_ok_parts h
  have hud : ∀ k, ext.utc.contains k = true → alookup dt k ≠ some DType.dstr := by
    intro k hk
    have h1 : ext.utc.all (fun c => decide (alookup dt c ≠ some DType.dstr)) = true := by
      unfold utcOkB at hutc
      rw [hdt] at hutc
      exact hutc
    exact of_decide_eq_true (List.all_eq_true.mp h1 k (by simpa using hk))
  have hstable := postprocess_out_stable hrect hud hstep1 hoc
  obtain ⟨d1r, d2, hreq, hast, hout⟩ := order_columns_ok_parts hoc
  have hstep2 : utcStep ext.utc out = .ok out :=
    utcStep_fix (fun col hcol c hc hcont => (hstable col hcol c hc).1 hcont)
  have hast2 : astype dt out = .ok out :=
    astype_fix (fun col hcol c hc t ht => (hstable col hcol c hc).2.1 t ht)
  have hrep2 : replaceAll out = out :=
    replaceAll_fix (fun col hcol c hc => (hstable col hcol c hc).2.2)
  have hreq2 : reqCheck out ext.required = .ok out := by
    unfold reqCheck
    cases hre : ext.required with
    | none => rfl
    | some r =>
        unfold reqCheck at hreq
        rw [hre] at hreq
        have hreq' : (if (r.all fun k => (dfKeys d1).contains k) = true
            then Except.ok (reorder r d1)
            else (Except.error PyErr.assertionError : Except PyErr DataFrame)) =
            Except.ok d1r := hreq
        by_cases hall : (r.all fun k => (dfKeys d1).contains k) = true
        · rw [if_pos hall] at hreq'
          cases hreq'
          show (if (r.all fun k => (dfKeys out).contains k) = true
              then Except.ok (reorder r out)
              else (Except.error PyErr.assertionError : Except PyErr DataFrame)) =
              Except.ok out
          obtain ⟨hall2, hfix⟩ := reorder_pass2 hast
          rw [← hout] at hall2 hfix
          rw [if_pos hall2, hfix]
        · rw [if_neg hall] at hreq'
          cases hreq'
  unfold postprocess
  rw [hstep2, except_bind_ok, hdt, except_bind_ok]
  unfold order_columns
  rw [hreq2, except_bind_ok, hast2, except_bind_ok, hrep2]

/-- Frames built from row dicts are rectangular. -/
theorem dfRect_rowsToDf (rows : List (List (String × Cell))) :
    dfRect (rowsToDf rows) = true := by
  unfold rowsToDf
  cases hc : dedupKeys (rows.flatMap (fun r => r.map Prod.fst)) with
  | nil => rfl
  | cons k ks =>
      show dfRect ((k, rows.map (fun r => (alookup r k).getD .null)) ::
        ks.map (fun kk => (kk, rows.map (fun r => (alookup r kk).getD .null)))) = true
      have : ∀ col ∈ ks.map (fun kk =>
          (kk, rows.map (fun r => (alookup r kk).getD Cell.null))),
          decide (col.2.length =
            (rows.map (fun r => (alookup r k).getD Cell.null)).length) = true := by
        intro col hcol
        obtain ⟨kk, _, he⟩ := List.mem_map.mp hcol
        cases he
        simp
      exact List.all_eq_true.mpr this

/-- Every successful call runs through a post-processing pass. -/
theorem pycall_ok_postprocess {ext : DFExtractor} {x : PyInput} {out : DataFrame}
    (h : pycall ext x = .ok out) : ∃ d0, postprocess ext d0 = .ok out := by
  cases x with
  | df d =>
      have h' : (if ext.passDataframe = true then postprocess ext d
          else postprocess ext (base_call ext ((dfKeys d).map .dstr))) = .ok out := h
      by_cases hp : ext.passDataframe = true
      · rw [if_pos hp] at h'
        exact ⟨d, h'⟩
      · rw [if_neg hp] at h'
        exact ⟨_, h'⟩
  | single o => exact ⟨_, h⟩
  | many l => exact ⟨_, h⟩

/-! ## C5 -/

/-- C5 (amended): every dataframe handed back by the extractor has been
through the replacement map, so no returned cell carries the literal text
`"None"` or `"nan"`; the sentinel texts are replaced by the empty string,
which is not a true null. -/
theorem c5_no_sentinel_text (ext : DFExtractor) (x : PyInput) (out : DataFrame)
    (h : pycall ext x = .ok out) :
    ∀ col ∈ out, ∀ c ∈ col.2, c ≠ .str "None" ∧ c ≠ .str "nan" := by
  obtain ⟨d0, hpost⟩ := pycall_ok_postprocess h
  obtain ⟨d1, dt, _, _, hoc⟩ := postprocess_ok_parts hpost
  obtain ⟨d1r, d2, _, _, hout⟩ := order_columns_ok_parts hoc
  subst hout
  intro col hcol c hc
  obtain ⟨col2, _, hrep⟩ := List.mem_map.mp hcol
  have hcells : col.2 = col2.2.map replaceCell := by rw [← hrep]; rfl
  rw [hcells] at hc
  obtain ⟨c2, _, hceq⟩ := List.mem_map.mp hc
  rw [← hceq]
  exact replaceCell_not_sentinel c2

/-- An extractor with a registered float dtype, no required columns, no UTC
columns, and `pass_dataframe` left at its default. -/
def extSentinel : DFExtractor := ⟨none, [[("b", .dfloat)]], [], true, []⟩

/-- C5 (counterexample to the claim as stated): a cell holding the sentinel
text `"None"` is returned as the empty string, not as a true null. -/
theorem c5_sentinel_not_true_null :
    pycall extSentinel (.df [("a", [.str "None"])]) = .ok [("a", [.str ""])] ∧
    Cell.str "" ≠ Cell.null := by
  exact ⟨rfl, by simp⟩

/-- C5 witness: the amended theorem evaluated at the sentinel frame. -/
theorem c5_witness :
    Cell.str "" ≠ Cell.str "None" ∧ Cell.str "" ≠ Cell.str "nan" :=
  c5_no_sentinel_text extSentinel (.df [("a", [.str "None"])]) [("a", [.str ""])] rfl
    ("a", [.str ""]) (by simp) (.str "") (by simp)

/-! ## C10 -/

/-- C10 (amended): with `pass_dataframe=True` a dataframe input bypasses the
registered row extractors entirely and only the post-processing runs; the
call is idempotent - a successful output fed back in is returned unchanged -
for every rectangular input frame, provided no UTC column is assigned the
string dtype (a string-typed UTC column turns nulls into empty strings that
the second pass cannot re-parse as times). -/
theorem c10_pass_through_idempotence :
    (∀ ext d, ext.passDataframe = true → pycall ext (.df d) = postprocess ext d) ∧
    (∀ ext x out, ext.passDataframe = true → utcOkB ext = true →
      (∀ d, x = .df d → dfRect d = true) →
      pycall ext x = .ok out → pycall ext (.df out) = .ok out) := by
  constructor
  · intro ext d hp
    show (if ext.passDataframe = true then postprocess ext d
      else postprocess ext (base_call ext ((dfKeys d).map .dstr))) = postprocess ext d
    rw [if_pos hp]
  · intro ext x out hp hutc hrect h
    have hgoal : pycall ext (.df out) = postprocess ext out := by
      show (if ext.passDataframe = true then postprocess ext out
        else postprocess ext (base_call ext ((dfKeys out).map .dstr))) = postprocess ext out
      rw [if_pos hp]
    rw [hgoal]
    cases x with
    | df d =>
        have h' : postprocess ext d = .ok out := by
          have hx : pycall ext (.df d) = postprocess ext d := by
            show (if ext.passDataframe = true then postprocess ext d
              else postprocess ext (base_call ext ((dfKeys d).map .dstr))) =
              postprocess ext d
            rw [if_pos hp]
          rw [← hx]
          exact h
        exact postprocess_idem (hrect d rfl) hutc h'
    | single o =>
        exact postprocess_idem
          (show dfRect (base_call ext [o]) = true from dfRect_rowsToDf _) hutc h
    | many l =>
        exact postprocess_idem
          (show dfRect (base_call ext l) = true from dfRect_rowsToDf _) hutc h

/-- An extractor that declares a UTC column with a string dtype. -/
def extUtcStr : DFExtractor := ⟨none, [[("t", .dstr)]], ["t"], true, []⟩

/-- C10 (counterexample to the claim as stated): with a string-typed UTC
column, the first call turns a null into the empty string and the second
call on that output raises while re-parsing it as a time, so applying the
extractor twice does not equal applying it once. -/
theorem c10_utc_string_dtype_breaks_idempotence :
    pycall extUtcStr (.df [("t", [.null])]) = .ok [("t", [.str ""])] ∧
    pycall extUtcStr (.df [("t", [.str ""])]) = .error .valueError := by
  exact ⟨rfl, rfl⟩

/-- An extractor with a float-typed UTC column, used as a well-behaved
witness. -/
def extFloatUtc : DFExtractor := ⟨some ["t"], [[("t", .dfloat)]], ["t"], true, []⟩

/-- A concrete rectangular input frame. -/
def dfIn : DataFrame := [("t", [.null, .str "5"]), ("x", [.str "None", .num 3])]

/-- The frame produced by one pass over `dfIn`. -/
def dfOut : DataFrame := [("t", [.null, .num 5]), ("x", [.str "", .num 3])]

/-- C10 witness: the amended theorem at a concrete extractor and frame. -/
theorem c10_witness :
    pycall extFloatUtc (.df dfIn) = postprocess extFloatUtc dfIn ∧
    pycall extFloatUtc (.df dfOut) = .ok dfOut := by
  refine ⟨c10_pass_through_idempotence.1 extFloatUtc dfIn rfl,
    c10_pass_through_idempotence.2 extFloatUtc (.df dfIn) dfOut rfl rfl ?_ rfl⟩
  intro d hd
  cases hd
  rfl

end ObsPlus
